import Mathlib

/-!
Shallow embedding of the AxShell backend coordination engine
(`src/backend/main.go`): the agent registry, the priority task queue,
command validation/execution, and graceful termination.

Modelling conventions:
* Go `int` fields are embedded as `Int` (ids, queue indices, priorities,
  exit codes); counters that only ever start at 0 and increment are `Nat`.
* `map[int]*Agent` is embedded as an association list `List (Int × Agent)`
  (keys unique in every reachable state); map deletion removes every pair
  with the key.
* Go `strings.HasPrefix`/`strings.TrimPrefix` are embedded on the
  character-list representation (`String.data`), which is what the kernel
  can evaluate; this is extensionally the same function on Lean strings.
* Timestamps and float resource gauges are omitted: no verified property
  mentions them.  Database persistence is a best-effort mirror
  (no-op when `db == nil`); we model the in-memory state, with
  `saveQueueItemToDB` returning 0 (`QueueItem.id = 0`) as in the
  persistence-free configuration.  The time-derived batch id is passed in
  as an explicit argument.
* Spawning a subprocess is modelled by an oracle
  `run : String → ExecOutcome` supplied to `executeCommand`; the command
  text handed to the oracle is additionally returned (`Option String`) so
  theorems can state whether a subprocess was spawned and with what text.
-/

namespace AxShell

/-- Agent record (`type Agent struct`), timestamps and float gauges omitted. -/
structure Agent where
  id : Int
  name : String
  status : String
  currentTask : String
  tasksDone : Nat
  tasksFailed : Nat
  deriving Repr, DecidableEq

/-- Queue item record (`type QueueItem struct`), `CreatedAt` omitted. -/
structure QueueItem where
  id : Int
  index : Int
  command : String
  status : String
  output : String
  agentID : Int
  priority : Int
  batchID : String
  deriving Repr, DecidableEq

/-- Result of one command execution (`type CommandResult struct`),
`Duration`/`Timestamp` omitted (wall-clock time is not modelled). -/
structure CommandResult where
  agentID : Int
  command : String
  output : String
  error : String
  exitCode : Int
  deriving Repr, DecidableEq

/-- Outcome of `cmd.CombinedOutput()`: success (`err == nil`), an
`exec.ExitError` carrying an exit code, or a launch failure that is not an
`ExitError`. -/
inductive ExecOutcome
  | success (output : String)
  | exitFailure (output : String) (errMsg : String) (code : Int)
  | launchFailure (output : String) (errMsg : String)
  deriving Repr, DecidableEq

/-- The mutable manager state (`type AgentManager struct`): agent map,
queue slice, capacity bound and the two lifecycle flags.  Locks, websocket
clients, broadcast channel, log directory, api key and db handle are not
part of the sequential in-memory model. -/
structure AgentManager where
  agents : List (Int × Agent)
  queue : List QueueItem
  maxAgents : Nat
  running : Bool
  terminated : Bool
  deriving Repr, DecidableEq

/-- Fresh manager as built by `NewAgentManager` (no persisted state):
empty registry, empty queue, `maxAgents: 10`, `running: true`. -/
def newAgentManager : AgentManager :=
  { agents := [], queue := [], maxAgents := 10, running := true, terminated := false }

/-- Go `strings.HasPrefix s marker` on the character-list representation. -/
def hasMarker (s marker : String) : Bool :=
  marker.data.isPrefixOf s.data

/-- Go `strings.TrimPrefix s marker` on the character-list representation. -/
def trimMarker (s marker : String) : String :=
  if hasMarker s marker then String.mk (s.data.drop marker.data.length) else s

/-- Go map lookup `am.agents[id]` on the association-list model. -/
def lookupAgent : List (Int × Agent) → Int → Option Agent
  | [], _ => none
  | p :: rest, i => if p.1 = i then some p.2 else lookupAgent rest i

/-- In-place mutation of the agent object stored under `i`
(the Go code mutates through the `*Agent` pointer held in the map). -/
def updateAgent (agents : List (Int × Agent)) (i : Int) (f : Agent → Agent) :
    List (Int × Agent) :=
  agents.map (fun p => if p.1 = i then (p.1, f p.2) else p)

/-- `validateCommand`: a command is valid iff it starts with the
`"RUN "` marker; on success the marker is trimmed off (`strings.TrimPrefix`). -/
def validateCommand (command : String) : String × Bool :=
  if hasMarker command "RUN " then (trimMarker command "RUN ", true) else ("", false)

/-- Decomposes a subprocess outcome into (output, error text, exit code)
exactly as the error-handling block after `cmd.CombinedOutput()` does:
`err == nil` leaves error empty and exit code 0; an `ExitError` supplies
its code; any other launch error maps to exit code 1. -/
def outcomeFields : ExecOutcome → String × String × Int
  | .success output => (output, "", 0)
  | .exitFailure output msg code => (output, msg, code)
  | .launchFailure output msg => (output, msg, 1)

/-- Agent field update performed in the first critical section of
`ExecuteCommand` (status `"running"`, current task set). -/
def setRunningTask (command : String) (a : Agent) : Agent :=
  { a with status := "running", currentTask := command }

/-- Agent field update performed in the second critical section of
`ExecuteCommand` (status `"idle"`, task cleared, one counter bumped). -/
def setIdleCounters (success : Bool) (a : Agent) : Agent :=
  { a with
    status := "idle"
    currentTask := ""
    tasksDone := (if success then a.tasksDone + 1 else a.tasksDone)
    tasksFailed := (if success then a.tasksFailed else a.tasksFailed + 1) }

/-- First critical section of `ExecuteCommand`: if the agent exists, set
status `"running"` and record the command as its current task. -/
def markRunning (am : AgentManager) (agentID : Int) (command : String) : AgentManager :=
  match lookupAgent am.agents agentID with
  | none => am
  | some _ => { am with agents := updateAgent am.agents agentID (setRunningTask command) }

/-- Second critical section of `ExecuteCommand`: if the agent exists, set
status `"idle"`, clear the current task, and bump `tasksDone` or
`tasksFailed` according to the exit code. -/
def markIdle (am : AgentManager) (agentID : Int) (success : Bool) : AgentManager :=
  match lookupAgent am.agents agentID with
  | none => am
  | some _ => { am with agents := updateAgent am.agents agentID (setIdleCounters success) }

/-- `ExecuteCommand(agentID, command)`.  Returns the final manager state,
the `CommandResult`, and `some actualCommand` when a subprocess was spawned
with that text (`none` when no subprocess was spawned).  Mirrors the source
control flow: terminated-check, mark-running, `validateCommand`, the
`if !valid { if !strings.HasPrefix(command, "RUN ") {...} else { return } }`
block, subprocess run, mark-idle. -/
def executeCommand (run : String → ExecOutcome) (am : AgentManager)
    (agentID : Int) (command : String) :
    AgentManager × CommandResult × Option String :=
  if am.terminated then
    (am, { agentID := agentID, command := command, output := "",
           error := "System terminated by <END!> signal", exitCode := 0 }, none)
  else
    let am1 := markRunning am agentID command
    let v := validateCommand command
    if v.2 = false ∧ hasMarker command "RUN " = true then
      (am1, { agentID := agentID, command := command, output := "",
              error := "Invalid command format. Use: RUN <command>", exitCode := 1 }, none)
    else
      let actual := if v.2 then v.1 else command
      let f := outcomeFields (run actual)
      let am2 := markIdle am1 agentID (f.2.2 == 0)
      (am2, { agentID := agentID, command := command, output := f.1,
              error := f.2.1, exitCode := f.2.2 }, some actual)

/-- Go map lookup `commands[key]` for the string-keyed command map passed
to `AddToQueue` (modelled as an association list with unique keys). -/
def lookupKey : List (String × String) → String → Option String
  | [], _ => none
  | p :: rest, k => if p.1 = k then some p.2 else lookupKey rest k

/-- The items appended by the `for i := 1; i <= len(commands); i++` loop of
`AddToQueue`: slot key `fmt.Sprintf("%d", i)` is looked up for each
`i = 1..len(commands)` in increasing order; present slots become pending
items with `Index = baseIndex + i`, priority 0 and the shared batch id;
absent slots contribute nothing. -/
def newQueueItems (commands : List (String × String)) (baseIndex : Nat)
    (batchID : String) : List QueueItem :=
  (List.range commands.length).filterMap (fun k =>
    (lookupKey commands (toString (k + 1))).map (fun cmd =>
      { id := 0, index := ((baseIndex + (k + 1) : Nat) : Int), command := cmd,
        status := "pending", output := "", agentID := 0, priority := 0,
        batchID := batchID }))

/-- `AddToQueue(commands)`: `baseIndex := len(am.queue)`, then append one
item per present consecutive slot.  The time-derived batch id is an
explicit argument. -/
def addToQueue (am : AgentManager) (commands : List (String × String))
    (batchID : String) : AgentManager :=
  { am with queue := am.queue ++ newQueueItems commands am.queue.length batchID }

/-- `AddToQueueWithPriority(command, priority)`: single pending item with
`Index = len(am.queue) + 1` and the given priority (empty batch id). -/
def addToQueueWithPriority (am : AgentManager) (command : String)
    (priority : Int) : AgentManager :=
  { am with queue := am.queue ++
      [{ id := 0, index := ((am.queue.length + 1 : Nat) : Int), command := command,
         status := "pending", output := "", agentID := 0, priority := priority,
         batchID := "" }] }

/-- The removal loop of `RemoveFromQueue`: delete the first item whose
`Index` equals the argument; `none` when no item matches. -/
def removeFirstByIndex : List QueueItem → Int → Option (List QueueItem)
  | [], _ => none
  | it :: rest, idx =>
    if it.index = idx then some rest
    else (removeFirstByIndex rest idx).map (fun q => it :: q)

/-- `RemoveFromQueue(index) → bool`: removes the first matching item and
returns true, or returns false leaving the queue unchanged. -/
def removeFromQueue (am : AgentManager) (idx : Int) : AgentManager × Bool :=
  match removeFirstByIndex am.queue idx with
  | some q => ({ am with queue := q }, true)
  | none => (am, false)

/-- Priority of the best candidate so far in the `GetNextQueueItem` scan;
the scan starts from the sentinel `bestPriority := -1`. -/
def bestPriorityOf : Option (Nat × Int) → Int
  | none => -1
  | some p => p.2

/-- The in-place status flip `am.queue[bestIdx].Status = "running"`
performed on the selected queue slot. -/
def runningCopy (it : QueueItem) : QueueItem :=
  { it with status := "running" }

/-- The selection scan of `GetNextQueueItem`: walk the queue left to right,
replacing the best candidate only on `item.Status == "pending" &&
item.Priority > bestPriority` (strictly greater, so the earliest item of
maximal priority wins).  Returns the position and priority of the winner. -/
def findBestAux : List QueueItem → Nat → Option (Nat × Int) → Option (Nat × Int)
  | [], _, best => best
  | it :: rest, i, best =>
    if it.status = "pending" ∧ bestPriorityOf best < it.priority then
      findBestAux rest (i + 1) (some (i, it.priority))
    else
      findBestAux rest (i + 1) best

/-- `GetNextQueueItem` with the winning position exposed: flip the selected
slot to `"running"` in place and return (a pointer to) the flipped item;
`none` (state unchanged) when the scan found no candidate. -/
def getNextQueueItemIdx (am : AgentManager) : AgentManager × Option (Nat × QueueItem) :=
  match findBestAux am.queue 0 none with
  | none => (am, none)
  | some (j, _) =>
    if hj : j < am.queue.length then
      let it1 := runningCopy (am.queue.get ⟨j, hj⟩)
      ({ am with queue := am.queue.set j it1 }, some (j, it1))
    else (am, none)

/-- `GetNextQueueItem() → *QueueItem`: the public claim operation. -/
def getNextQueueItem (am : AgentManager) : AgentManager × Option QueueItem :=
  match getNextQueueItemIdx am with
  | (am1, some ji) => (am1, some ji.2)
  | (am1, none) => (am1, none)

/-- The update loop of `CompleteQueueItem`: set the first item whose
`Index` matches to `"completed"`/`"failed"` with the captured output, then
break. -/
def completeFirst : List QueueItem → Int → String → Bool → List QueueItem
  | [], _, _, _ => []
  | it :: rest, idx, output, success =>
    if it.index = idx then
      { it with
        status := (if success then "completed" else "failed")
        output := output } :: rest
    else it :: completeFirst rest idx output success

/-- `CompleteQueueItem(index, output, success)`. -/
def completeQueueItem (am : AgentManager) (idx : Int) (output : String)
    (success : Bool) : AgentManager :=
  { am with queue := completeFirst am.queue idx output success }

/-- `GracefulTerminate(signal)`: on the `"<END!>"` sentinel, latch
`terminated := true` and clear `running`; any other signal is ignored. -/
def gracefulTerminate (am : AgentManager) (signal : String) : AgentManager :=
  if signal = "<END!>" then { am with terminated := true, running := false } else am

/-- One iteration of the `StartAgentLoop` goroutine body: while
`running && !terminated`, claim the next queue item, stamp it with the
agent id (through the pointer into the queue slot), execute its command and
settle the item; otherwise do nothing.  Returns the claimed item, if any. -/
def agentLoopStep (run : String → ExecOutcome) (am : AgentManager)
    (agentID : Int) : AgentManager × Option QueueItem :=
  if am.running && !am.terminated then
    match getNextQueueItemIdx am with
    | (am1, some ji) =>
      let item1 := { ji.2 with agentID := agentID }
      let am2 := { am1 with queue := am1.queue.set ji.1 item1 }
      let r := executeCommand run am2 agentID item1.command
      (completeQueueItem r.1 item1.index r.2.1.output (r.2.1.exitCode == 0), some item1)
    | (am1, none) => (am1, none)
  else (am, none)

/-- The id-search loop of `AddAgent` (`id := 1; for { ...; id++ }`),
bounded by an explicit fuel (the loop terminates within
`len(agents) + 1` probes because the candidate ids are distinct). -/
def firstFree (ids : List Int) : Int → Nat → Int
  | start, 0 => start
  | start, fuel + 1 => if start ∈ ids then firstFree ids (start + 1) fuel else start

/-- The id assigned by `AddAgent`: the smallest integer id ≥ 1 not
currently used as a key of the agent map. -/
def freshId (ids : List Int) : Int :=
  firstFree ids 1 (ids.length + 1)

/-- `AddAgent(name) → *Agent`: reject (`nil`, state unchanged) when the
registry is at capacity, otherwise insert a fresh idle agent under the
smallest free id ≥ 1. -/
def addAgent (am : AgentManager) (name : String) : AgentManager × Option Agent :=
  if am.agents.length ≥ am.maxAgents then (am, none)
  else
    let i := freshId (am.agents.map Prod.fst)
    let agent : Agent :=
      { id := i, name := name, status := "idle", currentTask := "",
        tasksDone := 0, tasksFailed := 0 }
    ({ am with agents := am.agents ++ [(i, agent)] }, some agent)

/-- Go `delete(am.agents, id)` on the association-list model (removes every
pair with the key; at most one in any reachable state). -/
def eraseAgent : List (Int × Agent) → Int → List (Int × Agent)
  | [], _ => []
  | p :: rest, i => if p.1 = i then eraseAgent rest i else p :: eraseAgent rest i

/-- `RemoveAgent(id) → bool`: delete and return true when the id is
present, otherwise return false leaving the registry unchanged. -/
def removeAgent (am : AgentManager) (i : Int) : AgentManager × Bool :=
  match lookupAgent am.agents i with
  | some _ => ({ am with agents := eraseAgent am.agents i }, true)
  | none => (am, false)

/-- A registry operation for sequences of `AddAgent`/`RemoveAgent` calls. -/
inductive RegOp
  | addA (name : String)
  | removeA (i : Int)

/-- Apply one registry operation (discarding the returned value). -/
def applyOp (am : AgentManager) : RegOp → AgentManager
  | .addA name => (addAgent am name).1
  | .removeA i => (removeAgent am i).1

/-- Apply a sequence of registry operations left to right. -/
def applyOps (am : AgentManager) (ops : List RegOp) : AgentManager :=
  ops.foldl applyOp am

/-- `GetAgents` returns `[]*Agent`: a freshly allocated slice whose
elements are the live `*Agent` pointers of the map.  A pointer is modelled
by the agent's key; dereferencing it later resolves against the
then-current registry. -/
def getAgentsRefs (am : AgentManager) : List Int :=
  am.agents.map Prod.fst

/-- Dereference a previously returned `[]*Agent` value against the current
state (the pointers alias the live agent objects). -/
def readAgentRefs (am : AgentManager) (refs : List Int) : List (Option Agent) :=
  refs.map (fun i => lookupAgent am.agents i)

/-- The value returned by `GetQueueList`: the Go function returns
`am.queue` itself — a slice header (pointer to the live backing array plus
a length), not a copy.  We model the returned header by its length; the
backing array is the manager's queue. -/
structure QueueSliceRef where
  len : Nat
  deriving Repr, DecidableEq

/-- `GetQueueList() → []QueueItem` (returns the live slice header). -/
def getQueueList (am : AgentManager) : QueueSliceRef :=
  { len := am.queue.length }

/-- Read a previously returned `GetQueueList` slice against the current
state: the header still points at the live backing array, so in-place
element updates made after the call are visible through it. -/
def readQueueSlice (am : AgentManager) (r : QueueSliceRef) : List QueueItem :=
  am.queue.take r.len

/-- Claim C1: a command without the `"RUN "` marker is claimed to fail fast
with exit code 1, a non-empty error, and no subprocess.  The code instead
falls through (`actualCommand = command`) and executes the raw text: at
agent 1 and command `"echo hi"` (with a succeeding shell oracle) the result
has exit code 0, an empty error, and a subprocess WAS spawned with the
unvalidated text `"echo hi"`.  The rejection branch is unreachable because
it requires `!valid && strings.HasPrefix(command, "RUN ")`, while
`validateCommand` returns `valid = false` exactly when the marker is absent. -/
theorem c1_missing_marker_still_executes :
    executeCommand (fun _ => ExecOutcome.success "hi\n") newAgentManager 1 "echo hi" =
      (newAgentManager,
       { agentID := 1, command := "echo hi", output := "hi\n", error := "", exitCode := 0 },
       some "echo hi") := by
  decide

/-- Claim C4: once `GracefulTerminate("<END!>")` has latched the
`terminated` flag, every `ExecuteCommand` call — for every agent id and
every command, well-formed `"RUN ..."` commands included — returns the
fixed `"System terminated by <END!> signal"` error, spawns no subprocess
(the run oracle is never consulted), and leaves the whole manager state
(all agents, all queue items) unchanged; and an `ExecutionLoop` iteration
claims nothing and changes nothing, because its `running && !terminated`
guard is now false. -/
theorem c4_terminated_refuses_everything (run : String → ExecOutcome)
    (am : AgentManager) (agentID : Int) (command : String) :
    executeCommand run (gracefulTerminate am "<END!>") agentID command =
      (gracefulTerminate am "<END!>",
       { agentID := agentID, command := command, output := "",
         error := "System terminated by <END!> signal", exitCode := 0 }, none)
  ∧ agentLoopStep run (gracefulTerminate am "<END!>") agentID =
      (gracefulTerminate am "<END!>", none)
  ∧ (gracefulTerminate am "<END!>").terminated = true
  ∧ (gracefulTerminate am "<END!>").running = false := by
  constructor
  · simp [gracefulTerminate, executeCommand]
  · refine ⟨?_, by simp [gracefulTerminate], by simp [gracefulTerminate]⟩
    simp [gracefulTerminate, agentLoopStep]

/-- Claim C3 counterexample: sequence indices ARE reused after removal.
Enqueue one item (it gets index 1), remove it, enqueue another: the new
item is assigned index 1 again, because `AddToQueueWithPriority` computes
the index as `len(am.queue) + 1` from the current queue length, not from a
persistent counter. -/
theorem c3_counterexample_index_reused :
    (let s1 := addToQueueWithPriority newAgentManager "a" 0
     let s2 := (removeFromQueue s1 1).1
     let s3 := addToQueueWithPriority s2 "b" 0
     s1.queue.map QueueItem.index = [1] ∧ (removeFromQueue s1 1).2 = true
     ∧ s2.queue = [] ∧ s3.queue.map QueueItem.index = [1]) := by
  decide

/-- Membership in the items appended by `AddToQueue` decomposed through
`List.filterMap` over the slot range. -/
theorem mem_newQueueItems {commands : List (String × String)} {baseIndex : Nat}
    {batchID : String} {it : QueueItem} :
    it ∈ newQueueItems commands baseIndex batchID ↔
      ∃ k : Nat, k < commands.length ∧
        ∃ cmd, lookupKey commands (toString (k + 1)) = some cmd ∧
          it = { id := 0, index := ((baseIndex + (k + 1) : Nat) : Int), command := cmd,
                 status := "pending", output := "", agentID := 0, priority := 0,
                 batchID := batchID } := by
  unfold newQueueItems
  rw [List.mem_filterMap]
  constructor
  · rintro ⟨k, hk, hmap⟩
    rcases Option.map_eq_some'.mp hmap with ⟨cmd, hcmd, hit⟩
    exact ⟨k, List.mem_range.mp hk, cmd, hcmd, hit.symm⟩
  · rintro ⟨k, hk, cmd, hcmd, hit⟩
    exact ⟨k, List.mem_range.mpr hk, by rw [hcmd]; simp [hit]⟩

/-- Claim C3, amended: a newly assigned sequence index always strictly
exceeds the length the queue had when the enqueue operation began
(`AddToQueueWithPriority` assigns `len+1`; `AddToQueue` assigns
`baseIndex + slot` with slot ≥ 1) — but indices are not globally monotone
and are reused after removal. -/
theorem c3_amended_index_exceeds_length (am : AgentManager) (command : String)
    (priority : Int) (commands : List (String × String)) (batchID : String) :
    (∀ it ∈ (addToQueueWithPriority am command priority).queue.drop am.queue.length,
       (am.queue.length : Int) < it.index)
  ∧ (∀ it ∈ (addToQueue am commands batchID).queue.drop am.queue.length,
       (am.queue.length : Int) < it.index) := by
  constructor
  · intro it hit
    unfold addToQueueWithPriority at hit
    rw [List.drop_left] at hit
    rcases List.mem_singleton.mp hit with rfl
    push_cast
    omega
  · intro it hit
    unfold addToQueue at hit
    rw [List.drop_left] at hit
    rcases mem_newQueueItems.mp hit with ⟨k, hk, cmd, hcmd, rfl⟩
    push_cast
    omega

/-- Witness for the amended C3 at a concrete state: both enqueue
operations on the empty queue assign indices strictly above 0. -/
theorem c3_amended_witness :
    (∀ it ∈ (addToQueueWithPriority newAgentManager "a" 0).queue.drop
        newAgentManager.queue.length, (newAgentManager.queue.length : Int) < it.index)
  ∧ (∀ it ∈ (addToQueue newAgentManager [("1", "x")] "b").queue.drop
        newAgentManager.queue.length, (newAgentManager.queue.length : Int) < it.index) :=
  c3_amended_index_exceeds_length newAgentManager "a" 0 [("1", "x")] "b"

/-- Looking an id up after deleting it from the registry map yields nothing. -/
theorem lookupAgent_eraseAgent (l : List (Int × Agent)) (i : Int) :
    lookupAgent (eraseAgent l i) i = none := by
  induction l with
  | nil => rfl
  | cons p rest ih =>
    by_cases h : p.1 = i
    · simp [eraseAgent, h, ih]
    · simp [eraseAgent, lookupAgent, h, ih]

/-- The removal loop of `RemoveFromQueue` finds nothing when no item
carries the requested index. -/
theorem removeFirstByIndex_eq_none {q : List QueueItem} {idx : Int}
    (h : ∀ it ∈ q, it.index ≠ idx) : removeFirstByIndex q idx = none := by
  induction q with
  | nil => rfl
  | cons it rest ih =>
    have h1 : it.index ≠ idx := h it (List.mem_cons_self it rest)
    have h2 : removeFirstByIndex rest idx = none :=
      ih (fun x hx => h x (List.mem_cons_of_mem it hx))
    simp [removeFirstByIndex, h1, h2]

/-- Claim C8: `RemoveAgent` on a live id returns true and a second call on
the same id returns false; `RemoveFromQueue` on an index carried by no
item returns false and leaves the state unchanged. -/
theorem c8_remove_idempotent (am : AgentManager) (i idx : Int)
    (ha : (lookupAgent am.agents i).isSome = true)
    (hq : ∀ it ∈ am.queue, it.index ≠ idx) :
    (removeAgent am i).2 = true
  ∧ (removeAgent (removeAgent am i).1 i).2 = false
  ∧ removeFromQueue am idx = (am, false) := by
  rcases hsome : lookupAgent am.agents i with _ | a
  · rw [hsome] at ha
    simp at ha
  · refine ⟨?_, ?_, ?_⟩
    · simp [removeAgent, hsome]
    · simp [removeAgent, hsome, lookupAgent_eraseAgent]
    · simp [removeFromQueue, removeFirstByIndex_eq_none hq]

/-- Witness for C8 at a concrete state: one agent (id 1), empty queue,
probe index 5. -/
theorem c8_remove_idempotent_witness :
    (removeAgent (addAgent newAgentManager "a").1 1).2 = true
  ∧ (removeAgent (removeAgent (addAgent newAgentManager "a").1 1).1 1).2 = false
  ∧ removeFromQueue (addAgent newAgentManager "a").1 5 =
      ((addAgent newAgentManager "a").1, false) :=
  c8_remove_idempotent (addAgent newAgentManager "a").1 1 5 (by decide) (by decide)

/-- Deleting a key never grows the registry map. -/
theorem length_eraseAgent_le (l : List (Int × Agent)) (i : Int) :
    (eraseAgent l i).length ≤ l.length := by
  induction l with
  | nil => simp [eraseAgent]
  | cons p rest ih =>
    by_cases h : p.1 = i
    · simp only [eraseAgent, if_pos h]
      exact Nat.le_succ_of_le ih
    · simp only [eraseAgent, if_neg h, List.length_cons]
      omega

/-- One registry operation preserves the configured maximum and the
capacity bound `len(agents) ≤ maxAgents`. -/
theorem applyOp_step (am : AgentManager) (op : RegOp) :
    (applyOp am op).maxAgents = am.maxAgents
  ∧ (am.agents.length ≤ am.maxAgents →
       (applyOp am op).agents.length ≤ am.maxAgents) := by
  cases op with
  | addA name =>
    by_cases h : am.agents.length ≥ am.maxAgents
    · simp [applyOp, addAgent, h]
    · constructor
      · simp [applyOp, addAgent, h]
      · intro _
        simp only [applyOp, addAgent, if_neg h]
        simp only [List.length_append, List.length_cons, List.length_nil]
        omega
  | removeA i =>
    rcases hsome : lookupAgent am.agents i with _ | a
    · simp [applyOp, removeAgent, hsome]
    · constructor
      · simp [applyOp, removeAgent, hsome]
      · intro hle
        simp only [applyOp, removeAgent, hsome]
        exact le_trans (length_eraseAgent_le am.agents i) hle

/-- The capacity bound survives any sequence of registry operations. -/
theorem applyOps_inv (ops : List RegOp) : ∀ am : AgentManager,
    am.agents.length ≤ am.maxAgents →
    (applyOps am ops).agents.length ≤ am.maxAgents
  ∧ (applyOps am ops).maxAgents = am.maxAgents := by
  induction ops with
  | nil => exact fun am h => ⟨h, rfl⟩
  | cons op rest ih =>
    intro am h
    have hstep := applyOp_step am op
    have hrec := ih (applyOp am op) (hstep.1 ▸ hstep.2 h)
    have hfold : applyOps am (op :: rest) = applyOps (applyOp am op) rest := rfl
    rw [hfold]
    exact ⟨hstep.1 ▸ hrec.1, hrec.2.trans hstep.1⟩

/-- Claim C5: under every sequence of `AddAgent`/`RemoveAgent` calls the
live agent count never exceeds the configured maximum (in particular, from
a fresh manager it never exceeds the default 10), and `AddAgent` at or
above capacity rejects with `nil` and creates no state at all. -/
theorem c5_capacity_never_exceeded (am : AgentManager) (ops : List RegOp)
    (name : String) (hinv : am.agents.length ≤ am.maxAgents) :
    (applyOps am ops).agents.length ≤ am.maxAgents
  ∧ (am.agents.length ≥ am.maxAgents → addAgent am name = (am, none))
  ∧ (applyOps newAgentManager ops).agents.length ≤ 10 := by
  refine ⟨(applyOps_inv ops am hinv).1, ?_, ?_⟩
  · intro hfull
    simp [addAgent, hfull]
  · exact (applyOps_inv ops newAgentManager (by simp [newAgentManager])).1

/-- Witness for C5: two creations and a removal from the fresh manager
stay within the default capacity of 10. -/
theorem c5_capacity_witness :
    (applyOps newAgentManager [RegOp.addA "a", RegOp.addA "b", RegOp.removeA 1]).agents.length
      ≤ newAgentManager.maxAgents :=
  (c5_capacity_never_exceeded newAgentManager
    [RegOp.addA "a", RegOp.addA "b", RegOp.removeA 1] "x" (by decide)).1

/-- The id-search loop, run with enough fuel to reach a free id, lands on
the smallest free id at or above its starting point. -/
theorem firstFree_spec (ids : List Int) : ∀ (fuel : Nat) (start : Int),
    (∃ k : Nat, k ≤ fuel ∧ (start + (k : Int)) ∉ ids) →
    firstFree ids start fuel ∉ ids ∧ start ≤ firstFree ids start fuel ∧
    ∀ m : Int, start ≤ m → m < firstFree ids start fuel → m ∈ ids := by
  intro fuel
  induction fuel with
  | zero =>
    rintro start ⟨k, hk, hnot⟩
    have hk0 : k = 0 := Nat.le_zero.mp hk
    subst hk0
    simp only [Nat.cast_zero, add_zero] at hnot
    exact ⟨hnot, le_refl _, fun m h1 h2 => absurd (lt_of_le_of_lt h1 h2) (lt_irrefl _)⟩
  | succ fuel ih =>
    rintro start ⟨k, hk, hnot⟩
    by_cases hs : start ∈ ids
    · have hk0 : k ≠ 0 := by
        rintro rfl
        simp only [Nat.cast_zero, add_zero] at hnot
        exact hnot hs
      obtain ⟨k1, rfl⟩ : ∃ k1, k = k1 + 1 := ⟨k - 1, by omega⟩
      have hcast : start + ((k1 + 1 : Nat) : Int) = (start + 1) + (k1 : Int) := by
        push_cast
        ring
      have hrec := ih (start + 1) ⟨k1, by omega, by rw [← hcast]; exact hnot⟩
      have hstep : firstFree ids start (fuel + 1) = firstFree ids (start + 1) fuel := by
        simp [firstFree, hs]
      refine ⟨hstep ▸ hrec.1, hstep ▸ le_trans (by omega) hrec.2.1, ?_⟩
      intro m h1 h2
      rw [hstep] at h2
      rcases eq_or_lt_of_le h1 with rfl | h1s
      · exact hs
      · exact hrec.2.2 m (by omega) h2
    · have hstep : firstFree ids start (fuel + 1) = start := by
        simp [firstFree, hs]
      rw [hstep]
      exact ⟨hs, le_refl _, fun m h1 h2 => absurd (lt_of_le_of_lt h1 h2) (lt_irrefl _)⟩

/-- Pigeonhole: among the `len + 1` candidate ids `1, 2, ..., len + 1`, at
least one is not a key of the (length-`len`) registry map. -/
theorem exists_unused_id (ids : List Int) :
    ∃ k : Nat, k ≤ ids.length ∧ ((1 : Int) + (k : Int)) ∉ ids := by
  by_contra hcon
  push_neg at hcon
  set cand := (List.range (ids.length + 1)).map (fun k : Nat => (1 : Int) + (k : Int)) with hc
  have hsub : cand ⊆ ids := by
    intro x hx
    rcases List.mem_map.mp hx with ⟨k, hk, rfl⟩
    exact hcon k (Nat.lt_succ_iff.mp (List.mem_range.mp hk))
  have hnd : cand.Nodup := by
    refine List.Nodup.map ?_ (List.nodup_range _)
    intro a b hab
    have hab2 : (1 : Int) + (a : Int) = 1 + (b : Int) := hab
    have : (a : Int) = (b : Int) := by omega
    exact_mod_cast this
  have hlen := (hnd.subperm hsub).length_le
  rw [hc] at hlen
  simp only [List.length_map, List.length_range] at hlen
  omega

/-- The id assigned by `AddAgent` is the smallest integer ≥ 1 that is not
a key of the registry map. -/
theorem freshId_spec (ids : List Int) :
    freshId ids ∉ ids ∧ 1 ≤ freshId ids ∧
    ∀ m : Int, 1 ≤ m → m < freshId ids → m ∈ ids := by
  obtain ⟨k, hk, hnot⟩ := exists_unused_id ids
  exact firstFree_spec ids (ids.length + 1) 1 ⟨k, by omega, hnot⟩

/-- Claim C6 counterexample: the id search of `AddAgent` starts at
`id := 1`, so on an empty registry the first agent receives id 1 even
though the smallest non-negative integer not in use is 0 (0 is never
assigned by the code). -/
theorem c6_counterexample_zero_never_assigned :
    (addAgent newAgentManager "a").2.map Agent.id = some 1
  ∧ (0 : Int) ∉ newAgentManager.agents.map Prod.fst
  ∧ (1 : Int) ≠ 0 := by
  decide

/-- Claim C6, amended: below capacity, `AddAgent` assigns the smallest
POSITIVE integer id (≥ 1) not currently in use — ids freed by
`RemoveAgent` are reused — and initializes the agent with status
`"idle"`, an empty current task, zero counters and the requested name,
appending exactly that one entry to the registry. -/
theorem c6_amended_smallest_free_positive_id (am : AgentManager) (name : String)
    (hroom : am.agents.length < am.maxAgents) :
    ∃ a : Agent,
      addAgent am name = ({ am with agents := am.agents ++ [(a.id, a)] }, some a)
    ∧ a.status = "idle" ∧ a.currentTask = "" ∧ a.name = name
    ∧ a.tasksDone = 0 ∧ a.tasksFailed = 0
    ∧ a.id ∉ am.agents.map Prod.fst
    ∧ 1 ≤ a.id
    ∧ (∀ m : Int, 1 ≤ m → m < a.id → m ∈ am.agents.map Prod.fst) := by
  have hnot : ¬ am.agents.length ≥ am.maxAgents := by omega
  have hspec := freshId_spec (am.agents.map Prod.fst)
  refine ⟨{ id := freshId (am.agents.map Prod.fst), name := name, status := "idle",
            currentTask := "", tasksDone := 0, tasksFailed := 0 }, ?_,
          rfl, rfl, rfl, rfl, rfl, hspec.1, hspec.2.1, hspec.2.2⟩
  simp [addAgent, hnot]

/-- Witness for the amended C6: a fresh manager with ids 1 and 2 taken and
id 1 then freed hands the next agent id 1 again. -/
theorem c6_amended_witness :
    ∃ a : Agent,
      addAgent (applyOps newAgentManager [RegOp.addA "a", RegOp.addA "b", RegOp.removeA 1]) "c" =
        ({ (applyOps newAgentManager [RegOp.addA "a", RegOp.addA "b", RegOp.removeA 1]) with
            agents := (applyOps newAgentManager
              [RegOp.addA "a", RegOp.addA "b", RegOp.removeA 1]).agents ++ [(a.id, a)] }, some a)
    ∧ a.status = "idle" ∧ a.currentTask = "" ∧ a.name = "c"
    ∧ a.tasksDone = 0 ∧ a.tasksFailed = 0
    ∧ a.id ∉ (applyOps newAgentManager
        [RegOp.addA "a", RegOp.addA "b", RegOp.removeA 1]).agents.map Prod.fst
    ∧ 1 ≤ a.id
    ∧ (∀ m : Int, 1 ≤ m → m < a.id →
        m ∈ (applyOps newAgentManager
          [RegOp.addA "a", RegOp.addA "b", RegOp.removeA 1]).agents.map Prod.fst) :=
  c6_amended_smallest_free_positive_id
    (applyOps newAgentManager [RegOp.addA "a", RegOp.addA "b", RegOp.removeA 1]) "c" (by decide)

/-- Full characterization of the `GetNextQueueItem` selection scan: it
either returns its accumulator (and then no remaining pending item beats
the accumulated best priority), or it returns the position of a pending
item that strictly beats the accumulator, is maximal among all pending
items of the scanned list, and strictly beats every earlier pending item
(the `>` comparison makes the earliest maximum win). -/
theorem findBestAux_spec (l : List QueueItem) : ∀ (i : Nat) (best : Option (Nat × Int)),
    (findBestAux l i best = best ∧
      ∀ it ∈ l, it.status = "pending" → it.priority ≤ bestPriorityOf best)
  ∨ (∃ k : Nat, ∃ hk : k < l.length, ∃ p : Int,
      findBestAux l i best = some (i + k, p)
    ∧ (l.get ⟨k, hk⟩).status = "pending"
    ∧ (l.get ⟨k, hk⟩).priority = p
    ∧ bestPriorityOf best < p
    ∧ (∀ it ∈ l, it.status = "pending" → it.priority ≤ p)
    ∧ (∀ it ∈ l.take k, it.status = "pending" → it.priority < p)) := by
  induction l with
  | nil =>
    intro i best
    left
    exact ⟨rfl, by simp⟩
  | cons x rest ih =>
    intro i best
    by_cases hx : x.status = "pending" ∧ bestPriorityOf best < x.priority
    · have hstep : findBestAux (x :: rest) i best =
        findBestAux rest (i + 1) (some (i, x.priority)) := by
        simp [findBestAux, hx]
      rcases ih (i + 1) (some (i, x.priority)) with ⟨heq, hmax⟩ |
        ⟨k, hk, p, heq, hpend, hpri, hlt, hmax, hfirst⟩
      · right
        refine ⟨0, by simp, x.priority, ?_, hx.1, rfl, hx.2, ?_, by simp⟩
        · rw [hstep, heq]
          simp
        · intro it hit hp
          rcases List.mem_cons.mp hit with rfl | hmem
          · exact le_refl _
          · exact hmax it hmem hp
      · right
        have hk2 : k + 1 < (x :: rest).length := by
          simpa using Nat.succ_lt_succ hk
        have hxp : x.priority < p := hlt
        refine ⟨k + 1, hk2, p, ?_, ?_, ?_, lt_trans hx.2 hxp, ?_, ?_⟩
        · rw [hstep, heq, show i + 1 + k = i + (k + 1) from by omega]
        · simpa using hpend
        · simpa using hpri
        · intro it hit hp
          rcases List.mem_cons.mp hit with rfl | hmem
          · exact le_of_lt hxp
          · exact hmax it hmem hp
        · rw [List.take_succ_cons]
          intro it hit hp
          rcases List.mem_cons.mp hit with rfl | hmem
          · exact hxp
          · exact hfirst it hmem hp
    · have hstep : findBestAux (x :: rest) i best = findBestAux rest (i + 1) best := by
        simp [findBestAux, hx]
      have hxle : x.status = "pending" → x.priority ≤ bestPriorityOf best := by
        intro hp
        by_contra hgt
        exact hx ⟨hp, lt_of_not_le hgt⟩
      rcases ih (i + 1) best with ⟨heq, hmax⟩ |
        ⟨k, hk, p, heq, hpend, hpri, hlt, hmax, hfirst⟩
      · left
        refine ⟨hstep.trans heq, ?_⟩
        intro it hit hp
        rcases List.mem_cons.mp hit with rfl | hmem
        · exact hxle hp
        · exact hmax it hmem hp
      · right
        have hk2 : k + 1 < (x :: rest).length := by
          simpa using Nat.succ_lt_succ hk
        refine ⟨k + 1, hk2, p, ?_, ?_, ?_, hlt, ?_, ?_⟩
        · rw [hstep, heq, show i + 1 + k = i + (k + 1) from by omega]
        · simpa using hpend
        · simpa using hpri
        · intro it hit hp
          rcases List.mem_cons.mp hit with rfl | hmem
          · exact le_of_lt (lt_of_le_of_lt (hxle hp) hlt)
          · exact hmax it hmem hp
        · rw [List.take_succ_cons]
          intro it hit hp
          rcases List.mem_cons.mp hit with rfl | hmem
          · exact lt_of_le_of_lt (hxle hp) hlt
          · exact hfirst it hmem hp

/-- Case analysis for one `GetNextQueueItem` call, phrased through the
selection-scan characterization: either nothing is claimable (every
pending item sits at or below the `-1` sentinel) and the state is
unchanged, or the earliest pending item of maximal (sentinel-beating)
priority is flipped in place and returned. -/
theorem getNextQueueItem_cases (am : AgentManager) :
    (getNextQueueItem am = (am, none)
     ∧ ∀ it ∈ am.queue, it.status = "pending" → it.priority ≤ -1)
  ∨ ∃ k : Nat, ∃ hk : k < am.queue.length,
      getNextQueueItem am =
        ({ am with queue := am.queue.set k (runningCopy (am.queue.get ⟨k, hk⟩)) },
         some (runningCopy (am.queue.get ⟨k, hk⟩)))
    ∧ (am.queue.get ⟨k, hk⟩).status = "pending"
    ∧ -1 < (am.queue.get ⟨k, hk⟩).priority
    ∧ (∀ it ∈ am.queue, it.status = "pending" →
         it.priority ≤ (am.queue.get ⟨k, hk⟩).priority)
    ∧ (∀ it ∈ am.queue.take k, it.status = "pending" →
         it.priority < (am.queue.get ⟨k, hk⟩).priority) := by
  rcases findBestAux_spec am.queue 0 none with ⟨heq, hmax⟩ |
    ⟨k, hk, p, heq, hpend, hpri, hlt, hmax, hfirst⟩
  · left
    exact ⟨by simp [getNextQueueItem, getNextQueueItemIdx, heq], hmax⟩
  · right
    have hkz : (0 : Nat) + k = k := Nat.zero_add k
    rw [hkz] at heq
    have hidx : getNextQueueItemIdx am =
        ({ am with queue := am.queue.set k (runningCopy (am.queue.get ⟨k, hk⟩)) },
         some (k, runningCopy (am.queue.get ⟨k, hk⟩))) := by
      simp [getNextQueueItemIdx, heq, hk]
    refine ⟨k, hk, by simp [getNextQueueItem, hidx], hpend, ?_, ?_, ?_⟩
    · rw [hpri]
      exact hlt
    · rw [hpri]
      exact hmax
    · rw [hpri]
      exact hfirst

/-- Claim C2 counterexample: the scan starts from the sentinel
`bestPriority := -1`, so a pending item whose priority is ≤ -1 is
invisible to `GetNextQueueItem`.  With a single pending item of priority
-1 (enqueueable through `AddToQueueWithPriority`), the claim demands that
this pending item be selected and flipped to running, but the code
returns `nil` and changes nothing. -/
theorem c2_counterexample_negative_priority :
    (let s := addToQueueWithPriority newAgentManager "c" (-1)
     getNextQueueItem s = (s, none)
     ∧ s.queue.any (fun it => it.status == "pending") = true) := by
  decide

/-- Claim C2, amended: `GetNextQueueItem` selects, among the items with
status `"pending"` AND priority above the scan's `-1` sentinel, the one
with the strictly highest priority, preferring the earlier-inserted item
on equal priority; it flips exactly that item to `"running"` (returning
the flipped item) and touches nothing else; if no such item exists — in
particular if no item at all is pending — it returns `nil` and changes
nothing.  For priorities [3,1,3,2] enqueued in that order, successive
claims return the first priority-3 item, the second priority-3 item, the
priority-2 item and the priority-1 item, and a fifth claim returns
nothing. -/
theorem c2_amended_priority_selection (am : AgentManager) :
    ((getNextQueueItem am).2 = none →
       (getNextQueueItem am).1 = am ∧
       ∀ it ∈ am.queue, it.status = "pending" → it.priority ≤ -1)
  ∧ (∀ q : QueueItem, (getNextQueueItem am).2 = some q →
       ∃ k : Nat, ∃ hk : k < am.queue.length,
         (am.queue.get ⟨k, hk⟩).status = "pending"
       ∧ -1 < (am.queue.get ⟨k, hk⟩).priority
       ∧ q = runningCopy (am.queue.get ⟨k, hk⟩)
       ∧ (getNextQueueItem am).1 = { am with queue := am.queue.set k q }
       ∧ (∀ it ∈ am.queue, it.status = "pending" →
            it.priority ≤ (am.queue.get ⟨k, hk⟩).priority)
       ∧ (∀ it ∈ am.queue.take k, it.status = "pending" →
            it.priority < (am.queue.get ⟨k, hk⟩).priority))
  ∧ (let t0 := addToQueueWithPriority (addToQueueWithPriority (addToQueueWithPriority
       (addToQueueWithPriority newAgentManager "c1" 3) "c2" 1) "c3" 3) "c4" 2
     let p1 := getNextQueueItem t0
     let p2 := getNextQueueItem p1.1
     let p3 := getNextQueueItem p2.1
     let p4 := getNextQueueItem p3.1
     let p5 := getNextQueueItem p4.1
     p1.2.map QueueItem.command = some "c1" ∧ p2.2.map QueueItem.command = some "c3"
     ∧ p3.2.map QueueItem.command = some "c4" ∧ p4.2.map QueueItem.command = some "c2"
     ∧ p5.2 = none) := by
  rcases getNextQueueItem_cases am with ⟨hnq, hmax⟩ |
    ⟨k, hk, hnq, hpend, hlt, hmax, hfirst⟩
  · refine ⟨?_, ?_, by decide⟩
    · intro _
      exact ⟨by rw [hnq], hmax⟩
    · intro q hq
      rw [hnq] at hq
      simp at hq
  · refine ⟨?_, ?_, by decide⟩
    · intro hnone
      rw [hnq] at hnone
      simp at hnone
    · intro q hq
      rw [hnq] at hq
      simp only [Option.some.injEq] at hq
      subst hq
      exact ⟨k, hk, hpend, hlt, rfl, by rw [hnq], hmax, hfirst⟩

/-- Witness for the amended C2: on the fresh (empty-queue) manager the
claim operation returns nothing and leaves the state unchanged. -/
theorem c2_amended_witness :
    (getNextQueueItem newAgentManager).1 = newAgentManager :=
  ((c2_amended_priority_selection newAgentManager).1 (by decide)).1

/-- A `filterMap` over a pairwise-related list is pairwise related when
the extraction respects the relation. -/
theorem pairwise_filterMap_of {α β : Type} (f : α → Option β) (R : β → β → Prop)
    (S : α → α → Prop)
    (h : ∀ a b x y, S a b → f a = some x → f b = some y → R x y) :
    ∀ l : List α, l.Pairwise S → (l.filterMap f).Pairwise R := by
  intro l hl
  induction hl with
  | nil => simp
  | @cons a tail ha _ ih =>
    cases hfa : f a with
    | none => simpa [List.filterMap_cons, hfa] using ih
    | some x =>
      rw [List.filterMap_cons, hfa]
      refine List.Pairwise.cons ?_ ih
      intro y hy
      rcases List.mem_filterMap.mp hy with ⟨b, hb, hfb⟩
      exact h a b x y (ha b hb) hfa hfb

/-- The items appended by one `AddToQueue` call carry strictly increasing
indices (slots are visited in increasing order). -/
theorem pairwise_newQueueItems (commands : List (String × String)) (baseIndex : Nat)
    (batchID : String) :
    (newQueueItems commands baseIndex batchID).Pairwise (fun a b => a.index < b.index) := by
  unfold newQueueItems
  refine pairwise_filterMap_of _ _ (fun a b : Nat => a < b) ?_ _ (List.pairwise_lt_range _)
  intro a b x y hab hfa hfb
  rcases Option.map_eq_some'.mp hfa with ⟨cmda, _, hxa⟩
  rcases Option.map_eq_some'.mp hfb with ⟨cmdb, _, hyb⟩
  rw [← hxa, ← hyb]
  simp only []
  push_cast
  omega

/-- Claim C9: `AddToQueue` enqueues exactly the entries whose keys are the
decimal strings `"1" .. "<size>"` — visited in increasing key order, each
getting index `baseIndex + slot`, status pending and priority 0 — and
silently drops every entry under any other key; the pre-existing queue is
untouched. -/
theorem c9_consecutive_slot_keys (am : AgentManager) (commands : List (String × String))
    (batchID : String) (hnd : (commands.map Prod.fst).Nodup) :
    ((addToQueue am commands batchID).queue.take am.queue.length = am.queue)
  ∧ (∀ it ∈ (addToQueue am commands batchID).queue.drop am.queue.length,
       ∃ i : Nat, 1 ≤ i ∧ i ≤ commands.length
       ∧ lookupKey commands (toString i) = some it.command
       ∧ it.index = ((am.queue.length + i : Nat) : Int)
       ∧ it.status = "pending" ∧ it.priority = 0 ∧ it.batchID = batchID)
  ∧ (∀ i : Nat, 1 ≤ i → i ≤ commands.length →
       ∀ cmd, lookupKey commands (toString i) = some cmd →
       ∃ it ∈ (addToQueue am commands batchID).queue.drop am.queue.length,
         it.command = cmd ∧ it.index = ((am.queue.length + i : Nat) : Int))
  ∧ ((addToQueue am commands batchID).queue.drop am.queue.length).Pairwise
       (fun a b => a.index < b.index) := by
  have hdrop : (addToQueue am commands batchID).queue.drop am.queue.length =
      newQueueItems commands am.queue.length batchID := by
    unfold addToQueue
    exact List.drop_left _ _
  refine ⟨?_, ?_, ?_, ?_⟩
  · unfold addToQueue
    exact List.take_left _ _
  · intro it hit
    rw [hdrop] at hit
    rcases mem_newQueueItems.mp hit with ⟨k, hk, cmd, hcmd, rfl⟩
    exact ⟨k + 1, by omega, by omega, hcmd, rfl, rfl, rfl, rfl⟩
  · intro i h1 h2 cmd hcmd
    refine ⟨{ id := 0, index := ((am.queue.length + i : Nat) : Int), command := cmd,
              status := "pending", output := "", agentID := 0, priority := 0,
              batchID := batchID }, ?_, rfl, rfl⟩
    rw [hdrop]
    refine mem_newQueueItems.mpr ⟨i - 1, by omega, cmd, ?_, ?_⟩
    · rw [show i - 1 + 1 = i from by omega]
      exact hcmd
    · rw [show i - 1 + 1 = i from by omega]
  · rw [hdrop]
    exact pairwise_newQueueItems commands am.queue.length batchID

/-- Witness for C9 at the gap map `{"1": "a", "3": "b"}` on the fresh
manager: the appended batch satisfies the slot-key characterization (in
particular only `"a"` is enqueued, as the separate gap computation below
confirms). -/
theorem c9_consecutive_slot_keys_witness :
    ((addToQueue newAgentManager [("1", "a"), ("3", "b")] "bat").queue.take
        newAgentManager.queue.length = newAgentManager.queue)
  ∧ (∀ it ∈ (addToQueue newAgentManager [("1", "a"), ("3", "b")] "bat").queue.drop
        newAgentManager.queue.length,
       ∃ i : Nat, 1 ≤ i ∧ i ≤ ([("1", "a"), ("3", "b")] : List (String × String)).length
       ∧ lookupKey [("1", "a"), ("3", "b")] (toString i) = some it.command
       ∧ it.index = ((newAgentManager.queue.length + i : Nat) : Int)
       ∧ it.status = "pending" ∧ it.priority = 0 ∧ it.batchID = "bat")
  ∧ (∀ i : Nat, 1 ≤ i → i ≤ ([("1", "a"), ("3", "b")] : List (String × String)).length →
       ∀ cmd, lookupKey [("1", "a"), ("3", "b")] (toString i) = some cmd →
       ∃ it ∈ (addToQueue newAgentManager [("1", "a"), ("3", "b")] "bat").queue.drop
           newAgentManager.queue.length,
         it.command = cmd ∧ it.index = ((newAgentManager.queue.length + i : Nat) : Int))
  ∧ ((addToQueue newAgentManager [("1", "a"), ("3", "b")] "bat").queue.drop
       newAgentManager.queue.length).Pairwise (fun a b => a.index < b.index) :=
  c9_consecutive_slot_keys newAgentManager [("1", "a"), ("3", "b")] "bat" (by decide)

/-- Claim C10: with the system not terminated and an agent id that is not
in the registry, `ExecuteCommand` does not short-circuit: it spawns the
(validated or raw) command, returns the oracle's result as the
`CommandResult`, and leaves the entire manager state — every agent in the
registry in particular — unchanged. -/
theorem c10_unknown_agent_executes_without_mutation (run : String → ExecOutcome)
    (am : AgentManager) (agentID : Int) (command : String)
    (hterm : am.terminated = false)
    (hid : lookupAgent am.agents agentID = none) :
    executeCommand run am agentID command =
      (am,
       { agentID := agentID, command := command,
         output := (outcomeFields (run (if hasMarker command "RUN " = true then
           trimMarker command "RUN " else command))).1,
         error := (outcomeFields (run (if hasMarker command "RUN " = true then
           trimMarker command "RUN " else command))).2.1,
         exitCode := (outcomeFields (run (if hasMarker command "RUN " = true then
           trimMarker command "RUN " else command))).2.2 },
       some (if hasMarker command "RUN " = true then
         trimMarker command "RUN " else command)) := by
  by_cases hm : hasMarker command "RUN " = true
  · simp [executeCommand, validateCommand, markRunning, markIdle, hterm, hid, hm]
  · simp [executeCommand, validateCommand, markRunning, markIdle, hterm, hid, hm]

/-- Witness for C10: agent id 7 is unknown to the fresh manager, yet
`"RUN x"` is executed and the state is unchanged. -/
theorem c10_unknown_agent_witness :
    executeCommand (fun _ => ExecOutcome.success "ok") newAgentManager 7 "RUN x" =
      (newAgentManager,
       { agentID := 7, command := "RUN x",
         output := (outcomeFields ((fun _ => ExecOutcome.success "ok")
           (if hasMarker "RUN x" "RUN " = true then trimMarker "RUN x" "RUN " else "RUN x"))).1,
         error := (outcomeFields ((fun _ => ExecOutcome.success "ok")
           (if hasMarker "RUN x" "RUN " = true then trimMarker "RUN x" "RUN " else "RUN x"))).2.1,
         exitCode := (outcomeFields ((fun _ => ExecOutcome.success "ok")
           (if hasMarker "RUN x" "RUN " = true then trimMarker "RUN x" "RUN " else "RUN x"))).2.2 },
       some (if hasMarker "RUN x" "RUN " = true then trimMarker "RUN x" "RUN " else "RUN x")) :=
  c10_unknown_agent_executes_without_mutation (fun _ => ExecOutcome.success "ok")
    newAgentManager 7 "RUN x" rfl rfl

/-- Updating the agent object stored under a key is visible to a later
lookup of that key (the map holds a pointer to the mutated object). -/
theorem lookupAgent_updateAgent (l : List (Int × Agent)) (i : Int) (f : Agent → Agent) :
    lookupAgent (updateAgent l i f) i = (lookupAgent l i).map f := by
  induction l with
  | nil => rfl
  | cons p rest ih =>
    by_cases h : p.1 = i
    · simp [updateAgent, lookupAgent, h]
    · simp only [updateAgent, List.map_cons, if_neg h]
      simp only [lookupAgent, if_neg h]
      exact ih

/-- A successful lookup means the id is one of the map's keys. -/
theorem lookupAgent_isSome_mem {l : List (Int × Agent)} {i : Int} {a : Agent}
    (h : lookupAgent l i = some a) : i ∈ l.map Prod.fst := by
  induction l with
  | nil => simp [lookupAgent] at h
  | cons p rest ih =>
    by_cases hp : p.1 = i
    · simp [hp]
    · simp only [lookupAgent, if_neg hp] at h
      simp only [List.map_cons, List.mem_cons]
      exact Or.inr (ih h)

/-- Two equal mapped lists agree pointwise on every member of the base
list. -/
theorem map_congr_of_eq {α β : Type} {f g : α → β} :
    ∀ {l : List α}, l.map f = l.map g → ∀ x ∈ l, f x = g x := by
  intro l
  induction l with
  | nil =>
    intro _ x hx
    simp at hx
  | cons a t ih =>
    intro h x hx
    simp only [List.map_cons, List.cons.injEq] at h
    rcases List.mem_cons.mp hx with rfl | hmem
    · exact h.1
    · exact ih h.2 x hmem

/-- For a live agent id, `ExecuteCommand` (not terminated) leaves the
registry map equal to the original with that agent's object rewritten by
the running-then-idle transition, for some success flag `b`. -/
theorem executeCommand_agents_of_known (run : String → ExecOutcome) (am : AgentManager)
    (i : Int) (c : String) (a : Agent)
    (hterm : am.terminated = false) (hid : lookupAgent am.agents i = some a) :
    ∃ b : Bool, (executeCommand run am i c).1.agents =
      updateAgent (updateAgent am.agents i (setRunningTask c)) i (setIdleCounters b) := by
  by_cases hm : hasMarker c "RUN " = true
  · refine ⟨(outcomeFields (run (trimMarker c "RUN "))).2.2 == 0, ?_⟩
    simp [executeCommand, validateCommand, markRunning, markIdle, hterm, hid, hm,
      lookupAgent_updateAgent]
  · refine ⟨(outcomeFields (run c)).2.2 == 0, ?_⟩
    simp [executeCommand, validateCommand, markRunning, markIdle, hterm, hid, hm,
      lookupAgent_updateAgent]

/-- Claim C7 counterexample: the value returned by `GetQueueList` is NOT a
defensive snapshot.  Enqueue one pending item, call `GetQueueList`, then
let `GetNextQueueItem` flip the item in place: reading the previously
returned slice now shows the `"running"` status, not the `"pending"`
status it had at call time. -/
theorem c7_counterexample_list_not_snapshot :
    (let s1 := addToQueueWithPriority newAgentManager "RUN a" 0
     let r := getQueueList s1
     let s2 := (getNextQueueItem s1).1
     readQueueSlice s2 r ≠ readQueueSlice s1 r) := by
  decide

/-- Claim C7, amended: neither list query returns a defensive copy.
`GetQueueList` returns the live queue slice, so after any successful
`GetNextQueueItem` the previously returned list reads differently; and
`GetAgents` returns a fresh slice of live `*Agent` pointers, so executing
a command on a registered agent changes what a previously returned list
dereferences to (the counter bump makes the difference observable). -/
theorem c7_amended_returned_lists_see_mutations (run : String → ExecOutcome)
    (am am2 : AgentManager) (q : QueueItem) (i : Int) (a : Agent) (c : String)
    (hclaim : getNextQueueItem am = (am2, some q))
    (hterm : am.terminated = false)
    (hid : lookupAgent am.agents i = some a) :
    readQueueSlice am2 (getQueueList am) ≠ readQueueSlice am (getQueueList am)
  ∧ readAgentRefs (executeCommand run am i c).1 (getAgentsRefs am) ≠
      readAgentRefs am (getAgentsRefs am) := by
  constructor
  · rcases getNextQueueItem_cases am with ⟨hnq, _⟩ |
      ⟨k, hk, hnq, hpend, _, _, _⟩
    · rw [hnq] at hclaim
      simp at hclaim
    · rw [hnq] at hclaim
      have ham2 : am2 = { am with
          queue := am.queue.set k (runningCopy (am.queue.get ⟨k, hk⟩)) } :=
        (congrArg Prod.fst hclaim).symm
      subst ham2
      intro hread
      simp only [readQueueSlice, getQueueList] at hread
      rw [List.take_length] at hread
      have h2 : (am.queue.set k (runningCopy (am.queue.get ⟨k, hk⟩))).take
          am.queue.length = am.queue.set k (runningCopy (am.queue.get ⟨k, hk⟩)) :=
        List.take_of_length_le (by rw [List.length_set])
      rw [h2] at hread
      have hget : (am.queue.set k (runningCopy (am.queue.get ⟨k, hk⟩)))[k]? =
          am.queue[k]? := by rw [hread]
      rw [List.getElem?_set_self (by omega)] at hget
      rw [List.getElem?_eq_getElem hk] at hget
      have hitem := Option.some.inj hget
      have hg : am.queue[k] = am.queue.get ⟨k, hk⟩ := rfl
      rw [hg] at hitem
      have hstat := congrArg QueueItem.status hitem
      rw [hpend] at hstat
      simp [runningCopy] at hstat
  · obtain ⟨b, hagents⟩ := executeCommand_agents_of_known run am i c a hterm hid
    intro hmapeq
    simp only [readAgentRefs, getAgentsRefs] at hmapeq
    have hx := map_congr_of_eq hmapeq i (lookupAgent_isSome_mem hid)
    simp only [] at hx
    rw [hagents, lookupAgent_updateAgent, lookupAgent_updateAgent, hid] at hx
    simp only [Option.map_some'] at hx
    have ha2 := Option.some.inj hx
    have hsum : (setIdleCounters b (setRunningTask c a)).tasksDone +
        (setIdleCounters b (setRunningTask c a)).tasksFailed =
        a.tasksDone + a.tasksFailed + 1 := by
      cases b <;> simp [setIdleCounters, setRunningTask] <;> omega
    rw [ha2] at hsum
    omega

/-- Witness for the amended C7: one agent, one pending item; both the
queue-slice read and the agent-pointer read change across the mutation. -/
theorem c7_amended_witness :
    (let s := addToQueueWithPriority (addAgent newAgentManager "w").1 "RUN x" 0
     readQueueSlice (getNextQueueItem s).1 (getQueueList s) ≠ readQueueSlice s (getQueueList s)
   ∧ readAgentRefs (executeCommand (fun _ => ExecOutcome.success "o") s 1 "RUN y").1
       (getAgentsRefs s) ≠ readAgentRefs s (getAgentsRefs s)) :=
  c7_amended_returned_lists_see_mutations (fun _ => ExecOutcome.success "o")
    (addToQueueWithPriority (addAgent newAgentManager "w").1 "RUN x" 0)
    (getNextQueueItem (addToQueueWithPriority (addAgent newAgentManager "w").1 "RUN x" 0)).1
    { id := 0, index := 1, command := "RUN x", status := "running", output := "",
      agentID := 0, priority := 0, batchID := "" }
    1
    { id := 1, name := "w", status := "idle", currentTask := "",
      tasksDone := 0, tasksFailed := 0 }
    "RUN y" (by decide) (by decide) (by decide)

end AxShell
